import Mathlib

/-!
Verification of the CMCCL collective-communication simulator.

This file shallowly embeds the parts of the repository that the checked
properties are about:

* `src/collective/ring_allreduce.py` — ring successor/predecessor maps;
* `src/collective/tree_allreduce.py` — logical-tree construction;
* `src/collective/ps_allreduce.py` — parameter-server setup;
* `src/switch.py` — `BroadcastSwitch.put`, the broadcast flood engine;
* `src/network.py` — `generate_all_flows`, `get_flow_by_src_dst`, `send`;
* `src/topos/star.py`, `src/topos/star_with_broadcast.py`,
  `src/topos/fattree_with_broadcast.py` — topology builders.

Python machine behaviour is made explicit: `%` on possibly-negative
operands is embedded as `Int.emod`, division by zero and `min` of an
empty sequence are embedded as explicit error values, and `copy.deepcopy`
is embedded as a fresh allocation in an explicit heap so that aliasing
questions are expressible.
-/

namespace CMCCL

/-! ## Ring AllReduce (`src/collective/ring_allreduce.py`)

`RingAllReduce` stores `self.workers = sorted(workers)`.  The two rank
maps are, verbatim from the source:

    def get_next_rank(self, rank):
        idx = self.workers.index(rank)
        return self.workers[(idx + 1) % self.n_workers]

    def get_prev_rank(self, rank):
        idx = self.workers.index(rank)
        return self.workers[(idx - 1) % self.n_workers]

`list.index` returns the first index of `rank`; Python `%` on a negative
left operand returns a value in `[0, n)`, which is `Int.emod`. -/

/-- `self.workers.index(rank)`: index of the first occurrence. -/
def listIndex (workers : List Nat) (rank : Nat) : Nat :=
  workers.indexOf rank

/-- `get_next_rank`: `self.workers[(idx + 1) % self.n_workers]`. -/
def get_next_rank (workers : List Nat) (rank : Nat) : Nat :=
  let idx := listIndex workers rank
  workers.getD ((idx + 1) % workers.length) 0

/-- `get_prev_rank`: `self.workers[(idx - 1) % self.n_workers]`, with
Python semantics of `%` on a negative left operand (`Int.emod`). -/
def get_prev_rank (workers : List Nat) (rank : Nat) : Nat :=
  let idx := listIndex workers rank
  workers.getD (((idx : Int) - 1).emod (workers.length : Int)).toNat 0

end CMCCL

namespace CMCCL

lemma get_next_rank_get (workers : List Nat) (hnd : workers.Nodup)
    (i : Nat) (hi : i < workers.length) :
    get_next_rank workers (workers.get ⟨i, hi⟩) =
      workers.get ⟨(i + 1) % workers.length, Nat.mod_lt _ (Nat.zero_lt_of_lt hi)⟩ := by
  unfold get_next_rank listIndex
  have hidx : workers.indexOf (workers.get ⟨i, hi⟩) = i := by
    simpa using List.get_indexOf hnd ⟨i, hi⟩
  simp only [hidx]
  have hlt : (i + 1) % workers.length < workers.length :=
    Nat.mod_lt _ (Nat.zero_lt_of_lt hi)
  simp [List.getD_eq_getElem?_getD, List.getElem?_eq_getElem hlt]

lemma get_prev_rank_get (workers : List Nat) (hnd : workers.Nodup)
    (i : Nat) (hi : i < workers.length) :
    get_prev_rank workers (workers.get ⟨i, hi⟩) =
      workers.get ⟨(i + (workers.length - 1)) % workers.length,
        Nat.mod_lt _ (Nat.zero_lt_of_lt hi)⟩ := by
  unfold get_prev_rank listIndex
  have hidx : workers.indexOf (workers.get ⟨i, hi⟩) = i := by
    simpa using List.get_indexOf hnd ⟨i, hi⟩
  simp only [hidx]
  have hn : 0 < workers.length := Nat.zero_lt_of_lt hi
  have hemod : (((i : Int) - 1).emod (workers.length : Int)).toNat =
      (i + (workers.length - 1)) % workers.length := by
    show ((((i : Int) - 1) % (workers.length : Int))).toNat = _
    have h1 : ((i : Int) - 1) % (workers.length : Int) =
        ((i : Int) + ((workers.length : Int) - 1)) % (workers.length : Int) := by
      conv_rhs =>
        rw [show (i : Int) + ((workers.length : Int) - 1) =
          ((i : Int) - 1) + (workers.length : Int) * 1 by ring]
      rw [Int.add_mul_emod_self_left]
    rw [h1]
    have h2 : (i : Int) + ((workers.length : Int) - 1) =
        ((i + (workers.length - 1) : Nat) : Int) := by
      push_cast [Nat.cast_sub hn]
      ring
    rw [h2, ← Int.natCast_mod, Int.toNat_natCast]
  rw [hemod]
  have hlt : (i + (workers.length - 1)) % workers.length < workers.length :=
    Nat.mod_lt _ hn
  simp [List.getD_eq_getElem?_getD, List.getElem?_eq_getElem hlt]

lemma get_next_rank_iterate (workers : List Nat) (hnd : workers.Nodup)
    (k i : Nat) (hi : i < workers.length) :
    (get_next_rank workers)^[k] (workers.get ⟨i, hi⟩) =
      workers.get ⟨(i + k) % workers.length, Nat.mod_lt _ (Nat.zero_lt_of_lt hi)⟩ := by
  induction k generalizing i with
  | zero =>
    simp [Nat.mod_eq_of_lt hi]
  | succ k ih =>
    rw [Function.iterate_succ_apply, get_next_rank_get workers hnd i hi]
    rw [ih _ (Nat.mod_lt _ (Nat.zero_lt_of_lt hi))]
    have hidxeq : ((i + 1) % workers.length + k) % workers.length =
        (i + (k + 1)) % workers.length := by
      rw [Nat.mod_add_mod]
      congr 1
      omega
    exact congrArg workers.get (Fin.ext hidxeq)

/-- C7: for every duplicate-free participant list and every participant
`p` in it, `get_prev_rank (get_next_rank p) = p`, applying
`get_next_rank` `n` times (`n` the number of participants) returns `p`,
and no smaller positive number of applications does — the successor map
is a single cycle of length `n` over the participants. -/
theorem ring_next_prev_cycle (workers : List Nat) (p : Nat)
    (hnd : workers.Nodup) (hmem : p ∈ workers) :
    get_prev_rank workers (get_next_rank workers p) = p ∧
    (get_next_rank workers)^[workers.length] p = p ∧
    (∀ k, 0 < k → k < workers.length → (get_next_rank workers)^[k] p ≠ p) := by
  have hi : workers.indexOf p < workers.length := List.indexOf_lt_length.mpr hmem
  have hp : workers.get ⟨workers.indexOf p, hi⟩ = p := List.indexOf_get hi
  set n := workers.length with hn
  set i := workers.indexOf p with hidef
  have hnpos : 0 < n := Nat.zero_lt_of_lt hi
  refine ⟨?_, ?_, ?_⟩
  · rw [← hp, get_next_rank_get workers hnd i hi,
      get_prev_rank_get workers hnd _ (Nat.mod_lt _ hnpos)]
    have hidxeq : ((i + 1) % n + (n - 1)) % n = i := by
      rw [Nat.mod_add_mod]
      have h2 : i + 1 + (n - 1) = i + n := by omega
      rw [h2, Nat.add_mod_right, Nat.mod_eq_of_lt hi]
    exact congrArg workers.get (Fin.ext hidxeq)
  · rw [← hp, get_next_rank_iterate workers hnd n i hi]
    have hidxeq : (i + n) % n = i := by
      rw [Nat.add_mod_right, Nat.mod_eq_of_lt hi]
    exact congrArg workers.get (Fin.ext hidxeq)
  · intro k hk0 hkn hcontra
    rw [← hp, get_next_rank_iterate workers hnd k i hi] at hcontra
    have hfineq := (List.Nodup.get_inj_iff hnd).mp hcontra
    have hidxeq : (i + k) % n = i := congrArg Fin.val hfineq
    have : (i + k) % n ≠ i := by
      rcases Nat.lt_or_ge (i + k) n with hlt | hge
      · rw [Nat.mod_eq_of_lt hlt]
        omega
      · rw [Nat.mod_eq_sub_mod hge, Nat.mod_eq_of_lt (by omega)]
        omega
    exact this hidxeq

/-- Witness for `ring_next_prev_cycle` at `workers = [2, 5, 7]`, `p = 5`. -/
theorem ring_next_prev_cycle_witness :
    get_prev_rank [2, 5, 7] (get_next_rank [2, 5, 7] 5) = 5 ∧
    (get_next_rank [2, 5, 7])^[3] 5 = 5 ∧
    (∀ k, 0 < k → k < 3 → (get_next_rank [2, 5, 7])^[k] 5 ≠ 5) :=
  ring_next_prev_cycle [2, 5, 7] 5 (by decide) (by decide)

/-! ## Fat-tree builder (`src/topos/fattree_with_broadcast.py`)

`create_fattree_network_with_broadcast(k)` raises `ValueError` for odd
`k` and otherwise adds nodes to an `nx.Graph`:

    n_core = (k//2)**2
    n_aggr = k * k//2          (Python parses this as (k * k) // 2)
    n_edge = k * k//2
    n_hosts = k**3//4

    core ids:  i                                   for i in range(n_core)
    aggr ids:  n_core + pod*(k//2) + i             for pod in range(k), i in range(k//2)
    edge ids:  n_core + n_aggr + pod*(k//2) + i    for pod in range(k), i in range(k//2)
    host ids:  n_core + n_aggr + n_edge
                 + pod*(k**2//4) + switch*(k//2) + host
               for pod in range(k), switch in range(k//2), host in range(k//2)

All later `add_edge` calls reference only ids already added (for the
aggregation–core wiring, `core_id = aggr*(k//2)+j < (k//2)**2` since
`aggr, j < k//2`), so the graph's node set is exactly the ids above;
`nx.Graph` deduplicates repeated additions, so the node count is the
number of distinct ids. -/

/-- `n_core = (k//2)**2`. -/
def n_core (k : Nat) : Nat := (k / 2) ^ 2

/-- `n_aggr = k * k//2`, i.e. `(k * k) // 2`. -/
def n_aggr (k : Nat) : Nat := k * k / 2

/-- `n_edge = k * k//2`. -/
def n_edge (k : Nat) : Nat := k * k / 2

/-- `n_hosts = k**3//4`. -/
def n_hosts (k : Nat) : Nat := k ^ 3 / 4

/-- Core-layer switch ids, in addition order. -/
def coreIds (k : Nat) : List Nat := List.range (n_core k)

/-- Aggregation-layer switch ids: `aggr_start + pod * (k//2) + i`. -/
def aggrIds (k : Nat) : List Nat :=
  (List.range k).flatMap (fun pod =>
    (List.range (k / 2)).map (fun i => n_core k + (pod * (k / 2) + i)))

/-- Edge-layer switch ids: `edge_start + pod * (k//2) + i`. -/
def edgeIds (k : Nat) : List Nat :=
  (List.range k).flatMap (fun pod =>
    (List.range (k / 2)).map (fun i => n_core k + n_aggr k + (pod * (k / 2) + i)))

/-- Host ids: `host_start + pod * (k**2//4) + switch * (k//2) + host`. -/
def hostIds (k : Nat) : List Nat :=
  (List.range k).flatMap (fun pod =>
    (List.range (k / 2)).flatMap (fun sw =>
      (List.range (k / 2)).map (fun h =>
        n_core k + n_aggr k + n_edge k + (pod * (k ^ 2 / 4) + (sw * (k / 2) + h)))))

/-- All node ids added by the builder, in addition order. -/
def fattreeNodes (k : Nat) : List Nat :=
  coreIds k ++ aggrIds k ++ edgeIds k ++ hostIds k

/-- `create_fattree_network_with_broadcast`: rejects odd `k` with
`ValueError("k must be even")`, otherwise builds the node set above. -/
def create_fattree_network_with_broadcast (k : Nat) : Except String (List Nat) :=
  if k % 2 ≠ 0 then .error "k must be even" else .ok (fattreeNodes k)

/-- Flattening a two-level loop `s + (pod * b + i)` enumerates the
interval `[s, s + a*b)` in order. -/
lemma flatMap_range_interval (a b s : Nat) :
    (List.range a).flatMap (fun p =>
      (List.range b).map (fun i => s + (p * b + i))) =
      (List.range (a * b)).map (fun j => s + j) := by
  induction a with
  | zero => simp
  | succ a ih =>
    rw [List.range_succ, List.flatMap_append, ih]
    have hab : (a + 1) * b = a * b + b := by ring
    rw [hab, List.range_add, List.map_append, List.map_map]
    congr 1
    simp only [List.flatMap_cons, List.flatMap_nil, List.append_nil]
    apply List.map_congr_left
    intro i _
    simp [Function.comp]

/-- Three-level variant of `flatMap_range_interval`. -/
lemma flatMap_range_interval3 (a b c s : Nat) :
    (List.range a).flatMap (fun p =>
      (List.range b).flatMap (fun q =>
        (List.range c).map (fun i => s + (p * (b * c) + (q * c + i))))) =
      (List.range (a * (b * c))).map (fun j => s + j) := by
  have hinner : (fun p => (List.range b).flatMap (fun q =>
      (List.range c).map (fun i => s + (p * (b * c) + (q * c + i))))) =
      (fun p => (List.range (b * c)).map (fun j => s + (p * (b * c) + j))) := by
    funext p
    have h := flatMap_range_interval b c (s + p * (b * c))
    simp only [Nat.add_assoc] at h
    exact h
  show List.flatMap _ _ = _
  rw [hinner]
  exact flatMap_range_interval a (b * c) s

lemma coreIds_even (m : Nat) : coreIds (2 * m) = List.range (m * m) := by
  have hhalf : 2 * m / 2 = m := by omega
  unfold coreIds n_core
  rw [hhalf, pow_two]

lemma aggrIds_even (m : Nat) :
    aggrIds (2 * m) = (List.range (2 * m * m)).map (fun j => m * m + j) := by
  have hhalf : 2 * m / 2 = m := by omega
  have h2 : ∀ A : Nat, 2 * A / 2 = A := fun A => by omega
  have hcore : n_core (2 * m) = m * m := by unfold n_core; rw [hhalf, pow_two]
  unfold aggrIds
  simp only [hhalf, hcore]
  exact flatMap_range_interval (2 * m) m (m * m)

lemma edgeIds_even (m : Nat) :
    edgeIds (2 * m) =
      (List.range (2 * m * m)).map (fun j => m * m + 2 * m * m + j) := by
  have hhalf : 2 * m / 2 = m := by omega
  have h2 : ∀ A : Nat, 2 * A / 2 = A := fun A => by omega
  have hcore : n_core (2 * m) = m * m := by unfold n_core; rw [hhalf, pow_two]
  have haggr : n_aggr (2 * m) = 2 * m * m := by
    unfold n_aggr
    rw [show 2 * m * (2 * m) = 2 * (2 * m * m) by ring]
    exact h2 _
  unfold edgeIds
  simp only [hhalf, hcore, haggr]
  exact flatMap_range_interval (2 * m) m (m * m + 2 * m * m)

lemma hostIds_even (m : Nat) :
    hostIds (2 * m) =
      (List.range (2 * m * (m * m))).map
        (fun j => m * m + 2 * m * m + 2 * m * m + j) := by
  have hhalf : 2 * m / 2 = m := by omega
  have h2 : ∀ A : Nat, 2 * A / 2 = A := fun A => by omega
  have h4 : ∀ A : Nat, 4 * A / 4 = A := fun A => by omega
  have hcore : n_core (2 * m) = m * m := by unfold n_core; rw [hhalf, pow_two]
  have haggr : n_aggr (2 * m) = 2 * m * m := by
    unfold n_aggr
    rw [show 2 * m * (2 * m) = 2 * (2 * m * m) by ring]
    exact h2 _
  have hedge : n_edge (2 * m) = 2 * m * m := by
    unfold n_edge
    rw [show 2 * m * (2 * m) = 2 * (2 * m * m) by ring]
    exact h2 _
  have hq : (2 * m) ^ 2 / 4 = m * m := by
    rw [show (2 * m) ^ 2 = 4 * (m * m) by ring]
    exact h4 _
  unfold hostIds
  simp only [hhalf, hcore, haggr, hedge, hq]
  exact flatMap_range_interval3 (2 * m) m m (m * m + 2 * m * m + 2 * m * m)

lemma fattreeNodes_even (m : Nat) :
    fattreeNodes (2 * m) =
      List.range (m * m + 2 * m * m + 2 * m * m + 2 * m * (m * m)) := by
  unfold fattreeNodes
  rw [coreIds_even, aggrIds_even, edgeIds_even, hostIds_even]
  rw [show (List.range (m * m) ++
      (List.range (2 * m * m)).map (fun j => m * m + j)) =
      List.range (m * m + 2 * m * m) from (List.range_add _ _).symm]
  rw [show (List.range (m * m + 2 * m * m) ++
      (List.range (2 * m * m)).map (fun j => m * m + 2 * m * m + j)) =
      List.range (m * m + 2 * m * m + 2 * m * m) from (List.range_add _ _).symm]
  exact (List.range_add _ _).symm

/-- C5: for every even `k ≥ 2`, the fat-tree builder accepts `k` and
produces exactly `(k/2)^2` core ids, `k*(k/2)` aggregation ids,
`k*(k/2)` edge ids and `k^3/4` host ids, all pairwise distinct, for a
total of `(k/2)^2 + k*(k/2) + k*(k/2) + k^3/4` graph nodes. -/
theorem fattree_node_counts (k : Nat) (hk : k % 2 = 0) (h2k : 2 ≤ k) :
    create_fattree_network_with_broadcast k = .ok (fattreeNodes k) ∧
    (coreIds k).length = (k / 2) ^ 2 ∧
    (aggrIds k).length = k * (k / 2) ∧
    (edgeIds k).length = k * (k / 2) ∧
    (hostIds k).length = k ^ 3 / 4 ∧
    (fattreeNodes k).Nodup ∧
    (fattreeNodes k).length =
      (k / 2) ^ 2 + k * (k / 2) + k * (k / 2) + k ^ 3 / 4 := by
  obtain ⟨m, rfl⟩ : ∃ m, k = 2 * m := ⟨k / 2, by omega⟩
  have hhalf : 2 * m / 2 = m := by omega
  have h2 : ∀ A : Nat, 2 * A / 2 = A := fun A => by omega
  have h4 : ∀ A : Nat, 4 * A / 4 = A := fun A => by omega
  have hcore : n_core (2 * m) = m * m := by unfold n_core; rw [hhalf, pow_two]
  have haggr : n_aggr (2 * m) = 2 * m * m := by
    unfold n_aggr
    rw [show 2 * m * (2 * m) = 2 * (2 * m * m) by ring]
    exact h2 _
  have hhosts : n_hosts (2 * m) = 2 * m * (m * m) := by
    unfold n_hosts
    rw [show (2 * m) ^ 3 = 4 * (2 * m * (m * m)) by ring]
    exact h4 _
  refine ⟨?_, ?_, ?_, ?_, ?_, ?_, ?_⟩
  · simp [create_fattree_network_with_broadcast, Nat.mul_mod_right]
  · simp [coreIds, n_core]
  · rw [aggrIds_even]
    simp only [List.length_map, List.length_range, hhalf]
  · rw [edgeIds_even]
    simp only [List.length_map, List.length_range, hhalf]
  · rw [hostIds_even]
    simp only [List.length_map, List.length_range]
    rw [← hhosts]
    rfl
  · rw [fattreeNodes_even]
    exact List.nodup_range _
  · rw [fattreeNodes_even]
    simp only [List.length_range]
    rw [hhalf, pow_two, show (2 * m) ^ 3 / 4 = 2 * m * (m * m) from hhosts]

/-- Witness for `fattree_node_counts` at `k = 4`. -/
theorem fattree_node_counts_witness :
    create_fattree_network_with_broadcast 4 = .ok (fattreeNodes 4) ∧
    (coreIds 4).length = (4 / 2) ^ 2 ∧
    (aggrIds 4).length = 4 * (4 / 2) ∧
    (edgeIds 4).length = 4 * (4 / 2) ∧
    (hostIds 4).length = 4 ^ 3 / 4 ∧
    (fattreeNodes 4).Nodup ∧
    (fattreeNodes 4).length = (4 / 2) ^ 2 + 4 * (4 / 2) + 4 * (4 / 2) + 4 ^ 3 / 4 :=
  fattree_node_counts 4 (by decide) (by decide)

/-! ## Flow generation (`src/network.py`, `generate_all_flows`)

    for src, dst in product(sorted(hosts), repeat=2):
        if src == dst: continue
        all_flows[flow_id] = Flow(flow_id, src, dst, ...)
        all_flows[flow_id].path = nx.shortest_path(G, src, dst)
        flow_id += 1

Node ids are `Int` so that the broadcast sentinel `-1` of the send layer
is representable.  `sorted(hosts)` is embedded as an ascending
insertion sort (Python's `sorted` returns the ascending permutation).

`nx.shortest_path` is library code outside this repository.  Modelled
from the spec: "compute one shortest path (breadth-first search on the
unweighted topology graph; ties resolved by a fixed neighbor-iteration
order)" — embedded as a fuelled breadth-first search whose frontier
holds reversed partial paths, visiting neighbors in the adjacency
order; it raises (returns `none`) when no path exists, which aborts
flow generation as `NetworkXNoPath` does. -/

/-- A `Flow` as used by `generate_all_flows`: id, endpoints, path. -/
structure FlowRec where
  flow_id : Nat
  src : Int
  dst : Int
  path : List Int
  deriving Repr, DecidableEq

/-- Modelled from the spec: breadth-first search returning one shortest
path.  Each queue entry is a reversed partial path from the source;
`visited` contains every node ever enqueued. -/
def bfsPaths (adj : Int → List Int) (dst : Int) :
    Nat → List (List Int) → List Int → Option (List Int)
  | 0, _, _ => none
  | _ + 1, [], _ => none
  | fuel + 1, p :: queue, visited =>
    match p with
    | [] => none
    | v :: _ =>
      if v = dst then some p.reverse
      else
        let newNbrs := (adj v).filter (fun w => !(visited.contains w))
        bfsPaths adj dst fuel (queue ++ newNbrs.map (fun w => w :: p))
          (visited ++ newNbrs)

/-- Modelled from the spec: `nx.shortest_path(G, src, dst)`. -/
def shortest_path (adj : Int → List Int) (src dst : Int) (fuel : Nat) :
    Option (List Int) :=
  bfsPaths adj dst fuel [[src]] [src]

/-- The ordered pairs iterated by
`for src, dst in product(sorted(hosts), repeat=2): if src == dst: continue`. -/
def hostPairs (sortedHosts : List Int) : List (Int × Int) :=
  sortedHosts.flatMap (fun s =>
    (sortedHosts.filter (fun d => !(s == d))).map (fun d => (s, d)))

/-- The loop body over the pair list: compute each pair's shortest path,
propagating the no-path failure. -/
def pathsFor (adj : Int → List Int) (fuel : Nat) :
    List (Int × Int) → Option (List (Int × Int × List Int))
  | [] => some []
  | p :: ps =>
    match shortest_path adj p.1 p.2 fuel with
    | none => none
    | some path => (pathsFor adj fuel ps).map (fun ts => (p.1, p.2, path) :: ts)

/-- `generate_all_flows`: one flow per ordered pair of distinct hosts,
with consecutively assigned flow ids; fails if any pair has no path. -/
def generate_all_flows (adj : Int → List Int) (hosts : List Int)
    (fuel : Nat) : Option (List FlowRec) :=
  (pathsFor adj fuel (hostPairs (List.insertionSort (· ≤ ·) hosts))).map
    (fun ts => ts.enum.map (fun t =>
      { flow_id := t.1, src := t.2.1, dst := t.2.2.1, path := t.2.2.2 }))

/-- Queue invariant of the breadth-first search: every queued reversed
partial path is nonempty, duplicate-free, rooted at the source, and
contained in the visited set. -/
def BfsInv (src : Int) (queue : List (List Int)) (visited : List Int) : Prop :=
  ∀ p ∈ queue, p ≠ [] ∧ p.Nodup ∧ p.getLast? = some src ∧ ∀ v ∈ p, v ∈ visited

lemma bfsPaths_spec (adj : Int → List Int) (src dst : Int) :
    ∀ (fuel : Nat) (queue : List (List Int)) (visited : List Int),
    BfsInv src queue visited →
    ∀ path, bfsPaths adj dst fuel queue visited = some path →
    path.head? = some src ∧ path.getLast? = some dst ∧ path.Nodup := by
  intro fuel
  induction fuel with
  | zero =>
    intro queue visited _ path h
    simp [bfsPaths] at h
  | succ fuel ih =>
    intro queue visited hinv path h
    match queue with
    | [] => simp [bfsPaths] at h
    | p :: queue =>
      obtain ⟨hne, hnd, hlast, hsub⟩ := hinv p (List.mem_cons_self _ _)
      match p, hne with
      | v :: rest, _ =>
        rw [bfsPaths] at h
        by_cases hv : v = dst
        · rw [if_pos hv] at h
          obtain rfl : (v :: rest).reverse = path := Option.some.inj h
          refine ⟨?_, ?_, ?_⟩
          · rw [List.head?_reverse]
            exact hlast
          · rw [List.getLast?_reverse]
            simp [hv]
          · exact List.nodup_reverse.mpr hnd
        · rw [if_neg hv] at h
          refine ih _ _ ?_ path h
          intro q hq
          rcases List.mem_append.mp hq with hq | hq
          · obtain ⟨h1, h2, h3, h4⟩ := hinv q (List.mem_cons_of_mem _ hq)
            exact ⟨h1, h2, h3, fun x hx => List.mem_append_left _ (h4 x hx)⟩
          · obtain ⟨w, hw, rfl⟩ := List.mem_map.mp hq
            have hwnbr := List.mem_filter.mp hw
            have hwnotvis : w ∉ visited := by simpa using hwnbr.2
            refine ⟨by simp, ?_, ?_, ?_⟩
            · refine List.nodup_cons.mpr ⟨?_, hnd⟩
              intro hwin
              exact hwnotvis (hsub w hwin)
            · rw [List.getLast?_cons_cons]
              exact hlast
            · intro x hx
              rcases List.mem_cons.mp hx with rfl | hx
              · exact List.mem_append_right _ hw
              · exact List.mem_append_left _ (hsub x hx)

lemma shortest_path_spec (adj : Int → List Int) (src dst : Int)
    (fuel : Nat) (path : List Int)
    (h : shortest_path adj src dst fuel = some path) :
    path.head? = some src ∧ path.getLast? = some dst ∧ path.Nodup := by
  refine bfsPaths_spec adj src dst fuel [[src]] [src] ?_ path h
  intro p hp
  rcases List.mem_cons.mp hp with rfl | hp
  · refine ⟨by simp, by simp, by simp, ?_⟩
    intro v hv
    simpa using hv
  · cases hp

lemma pathsFor_length (adj : Int → List Int) (fuel : Nat) :
    ∀ (ps : List (Int × Int)) (ts : List (Int × Int × List Int)),
    pathsFor adj fuel ps = some ts → ts.length = ps.length := by
  intro ps
  induction ps with
  | nil =>
    intro ts h
    simp [pathsFor] at h
    simp [← h]
  | cons p ps ih =>
    intro ts h
    rw [pathsFor] at h
    cases hsp : shortest_path adj p.1 p.2 fuel with
    | none => rw [hsp] at h; cases h
    | some path =>
      rw [hsp] at h
      cases hrec : pathsFor adj fuel ps with
      | none => rw [hrec] at h; cases h
      | some ts0 =>
        rw [hrec] at h
        obtain rfl : (p.1, p.2, path) :: ts0 = ts := Option.some.inj h
        simp [ih ts0 hrec]

lemma pathsFor_mem (adj : Int → List Int) (fuel : Nat) :
    ∀ (ps : List (Int × Int)) (ts : List (Int × Int × List Int)),
    pathsFor adj fuel ps = some ts →
    ∀ t ∈ ts, (t.1, t.2.1) ∈ ps ∧
      shortest_path adj t.1 t.2.1 fuel = some t.2.2 := by
  intro ps
  induction ps with
  | nil =>
    intro ts h t ht
    simp [pathsFor] at h
    rw [h] at ht
    cases ht
  | cons p ps ih =>
    intro ts h t ht
    rw [pathsFor] at h
    cases hsp : shortest_path adj p.1 p.2 fuel with
    | none => rw [hsp] at h; cases h
    | some path =>
      rw [hsp] at h
      cases hrec : pathsFor adj fuel ps with
      | none => rw [hrec] at h; cases h
      | some ts0 =>
        rw [hrec] at h
        obtain rfl : (p.1, p.2, path) :: ts0 = ts := Option.some.inj h
        rcases List.mem_cons.mp ht with rfl | ht
        · exact ⟨List.mem_cons_self _ _, hsp⟩
        · obtain ⟨h1, h2⟩ := ih ts0 hrec t ht
          exact ⟨List.mem_cons_of_mem _ h1, h2⟩

lemma sum_map_eq_length_mul {α : Type} (l : List α) (c : Nat)
    (f : α → Nat) (h : ∀ x ∈ l, f x = c) :
    (l.map f).sum = l.length * c := by
  induction l with
  | nil => simp
  | cons x xs ih =>
    have hx := h x (List.mem_cons_self _ _)
    have hxs := ih (fun y hy => h y (List.mem_cons_of_mem _ hy))
    simp only [List.map_cons, List.sum_cons, hx, hxs, List.length_cons]
    ring

lemma length_filter_ne (s : Int) (l : List Int) (hnd : l.Nodup)
    (hs : s ∈ l) :
    (l.filter (fun d => !(s == d))).length = l.length - 1 := by
  induction l with
  | nil => cases hs
  | cons x xs ih =>
    rw [List.nodup_cons] at hnd
    rcases List.mem_cons.mp hs with rfl | hmem
    · rw [List.filter_cons_of_neg (by simp)]
      have hall : xs.filter (fun d => !(s == d)) = xs := by
        refine List.filter_eq_self.mpr (fun d hd => ?_)
        simp only [Bool.not_eq_eq_eq_not, Bool.not_true,
          beq_eq_false_iff_ne, ne_eq]
        rintro rfl
        exact hnd.1 hd
      rw [hall]
      simp
    · have hne : s ≠ x := by
        rintro rfl
        exact hnd.1 hmem
      rw [List.filter_cons_of_pos (by simp [hne])]
      have hpos : 0 < xs.length := List.length_pos_of_mem hmem
      have := ih hnd.2 hmem
      simp only [List.length_cons, this]
      omega

lemma hostPairs_length (l : List Int) (hnd : l.Nodup) :
    (hostPairs l).length = l.length * (l.length - 1) := by
  unfold hostPairs
  rw [List.length_flatMap]
  refine sum_map_eq_length_mul l (l.length - 1) _ (fun s hs => ?_)
  simp only [Function.comp_apply, List.length_map]
  exact length_filter_ne s l hnd hs

lemma mem_hostPairs (l : List Int) (s d : Int)
    (h : (s, d) ∈ hostPairs l) : s ∈ l ∧ d ∈ l ∧ s ≠ d := by
  unfold hostPairs at h
  obtain ⟨a, ha, hmap⟩ := List.mem_flatMap.mp h
  obtain ⟨b, hb, heq⟩ := List.mem_map.mp hmap
  obtain ⟨hbmem, hbne⟩ := List.mem_filter.mp hb
  obtain ⟨rfl, rfl⟩ : a = s ∧ b = d :=
    ⟨(Prod.mk.injEq .. ▸ heq).1, (Prod.mk.injEq .. ▸ heq).2⟩
  refine ⟨ha, hbmem, ?_⟩
  simp only [Bool.not_eq_eq_eq_not, Bool.not_true, beq_eq_false_iff_ne,
    ne_eq] at hbne
  exact hbne

lemma snd_mem_of_mem_enum {α : Type} {l : List α} {x : Nat × α}
    (h : x ∈ l.enum) : x.2 ∈ l := by
  have := List.mem_map_of_mem Prod.snd h
  rwa [List.enum_map_snd] at this

/-- C6: for every graph and duplicate-free host list, a successful flow
generation yields exactly `n*(n-1)` flows (one per ordered pair of
distinct hosts), and every flow's recorded path starts at the flow's
source host, ends at its destination host, and repeats no node. -/
theorem generate_all_flows_count_and_paths (adj : Int → List Int)
    (hosts : List Int) (fuel : Nat) (flows : List FlowRec)
    (hnd : hosts.Nodup)
    (hgen : generate_all_flows adj hosts fuel = some flows) :
    flows.length = hosts.length * (hosts.length - 1) ∧
    ∀ f ∈ flows, f.path.head? = some f.src ∧ f.path.getLast? = some f.dst ∧
      f.path.Nodup ∧ f.src ∈ hosts ∧ f.dst ∈ hosts ∧ f.src ≠ f.dst := by
  unfold generate_all_flows at hgen
  cases hts : pathsFor adj fuel (hostPairs (List.insertionSort (· ≤ ·) hosts)) with
  | none => rw [hts] at hgen; cases hgen
  | some ts =>
    rw [hts] at hgen
    obtain rfl : ts.enum.map _ = flows := Option.some.inj hgen
    have hperm := List.perm_insertionSort (· ≤ ·) hosts
    have hsortnd : (List.insertionSort (· ≤ ·) hosts).Nodup :=
      hperm.nodup_iff.mpr hnd
    constructor
    · rw [List.length_map, List.enum_length,
        pathsFor_length adj fuel _ ts hts,
        hostPairs_length _ hsortnd, hperm.length_eq]
    · intro f hf
      obtain ⟨x, hx, rfl⟩ := List.mem_map.mp hf
      have hxmem : x.2 ∈ ts := snd_mem_of_mem_enum hx
      obtain ⟨hpair, hsp⟩ := pathsFor_mem adj fuel _ ts hts x.2 hxmem
      obtain ⟨hh, hl, hnodup⟩ := shortest_path_spec adj x.2.1 x.2.2.1 fuel x.2.2.2 hsp
      have hpair2 : (x.2.1, x.2.2.1) ∈ hostPairs (List.insertionSort (· ≤ ·) hosts) := hpair
      obtain ⟨hs, hd, hne⟩ := mem_hostPairs _ _ _ hpair2
      exact ⟨hh, hl, hnodup, hperm.mem_iff.mp hs, hperm.mem_iff.mp hd, hne⟩

/-- Witness for `generate_all_flows_count_and_paths` on a three-node
star (center `0`, hosts `1` and `2`). -/
theorem generate_all_flows_count_and_paths_witness :
    (generate_all_flows
        (fun v => if v = 0 then [1, 2] else if v = 1 then [0]
          else if v = 2 then [0] else []) [1, 2] 10 =
      some [{ flow_id := 0, src := 1, dst := 2, path := [1, 0, 2] },
            { flow_id := 1, src := 2, dst := 1, path := [2, 0, 1] }]) ∧
    ([{ flow_id := 0, src := 1, dst := 2, path := ([1, 0, 2] : List Int) },
      { flow_id := 1, src := 2, dst := 1, path := [2, 0, 1] }] :
        List FlowRec).length = [1, 2].length * ([1, 2].length - 1) ∧
    ∀ f ∈ ([{ flow_id := 0, src := 1, dst := 2, path := ([1, 0, 2] : List Int) },
      { flow_id := 1, src := 2, dst := 1, path := [2, 0, 1] }] : List FlowRec),
      f.path.head? = some f.src ∧ f.path.getLast? = some f.dst ∧
      f.path.Nodup ∧ f.src ∈ ([1, 2] : List Int) ∧
      f.dst ∈ ([1, 2] : List Int) ∧ f.src ≠ f.dst :=
  ⟨by decide,
    generate_all_flows_count_and_paths
      (fun v => if v = 0 then [1, 2] else if v = 1 then [0]
        else if v = 2 then [0] else []) [1, 2] 10 _ (by decide) (by decide)⟩

/-! ## The send path (`src/network.py`, `get_flow_by_src_dst` and `send`)

    def get_flow_by_src_dst(all_flows, src, dst):
        for flow_id, flow in all_flows.items():
            if flow.src == src and flow.dst == dst:
                return flow_id, flow
        return None

    def send(env, network, src_id, dst_id, message, data_size, is_broadcast):
        all_flows = network.all_flows
        flow_info = get_flow_by_src_dst(all_flows, src_id, dst_id)
        if flow_info is None:
            print(...); return
        flow_id, flow = flow_info
        packet = Packet(env.now, size=data_size,
                        packet_id=network.nodes[src_id]["send_packet_num"],
                        src=src_id, dst=dst_id, flow_id=flow_id)
        packet.is_broadcast = is_broadcast
        if is_broadcast:
            packet.last_hop = src_id
        env.process(_send_packet(env, packet, network.nodes[src_id]["device"]))
        network.nodes[src_id]["send_packet_num"] += 1

Note the flow lookup happens before `is_broadcast` is consulted:
`send` returns early whenever no unicast flow matches `(src_id, dst_id)`,
broadcast or not.  The dict iterates in insertion order (`List.find?`).
`_send_packet` hands the packet to the source node's device; the
embedding records that hand-off in `injected`. -/

/-- A packet as constructed by `send`; `last_hop` is the attribute set
only on broadcast packets. -/
structure Packet where
  time : Nat
  size : Nat
  packet_id : Nat
  src : Int
  dst : Int
  flow_id : Nat
  is_broadcast : Bool
  last_hop : Option Int
  deriving Repr, DecidableEq

/-- The slice of the network graph state that `send` touches: the flow
dict, the per-node `send_packet_num` counters, and the packets handed
to source devices (in hand-off order). -/
structure NetworkState where
  all_flows : List FlowRec
  send_packet_num : Int → Nat
  injected : List (Int × Packet)

/-- `get_flow_by_src_dst`: first flow (in dict insertion order) whose
endpoints match. -/
def get_flow_by_src_dst (all_flows : List FlowRec) (src dst : Int) :
    Option FlowRec :=
  all_flows.find? (fun f => f.src == src && f.dst == dst)

/-- `send`: looks up the unicast flow first; on a miss it prints a
diagnostic and returns with nothing injected and no counter change;
on a hit it builds the packet (with the pre-increment counter value as
`packet_id`), hands it to the source's device, and increments the
source's counter. -/
def send (net : NetworkState) (now : Nat) (src_id dst_id : Int)
    (data_size : Nat) (is_broadcast : Bool) : NetworkState :=
  match get_flow_by_src_dst net.all_flows src_id dst_id with
  | none => net
  | some flow =>
    let packet : Packet :=
      { time := now, size := data_size,
        packet_id := net.send_packet_num src_id,
        src := src_id, dst := dst_id, flow_id := flow.flow_id,
        is_broadcast := is_broadcast,
        last_hop := if is_broadcast then some src_id else none }
    { net with
      injected := net.injected ++ [(src_id, packet)],
      send_packet_num := fun n =>
        if n = src_id then net.send_packet_num n + 1
        else net.send_packet_num n }

/-- C10: a `send` for a pair with no flow — in particular `src = dst`
and the broadcast sentinel `-1`, which never occur among generated
flows — returns with the state untouched (no packet injected, every
counter unchanged); when a flow is found, exactly one packet is handed
to the source device and only the source's counter is incremented, by
one. -/
theorem send_flow_gating (net : NetworkState) (now : Nat)
    (src dst : Int) (sz : Nat) (b : Bool) :
    (get_flow_by_src_dst net.all_flows src dst = none →
      send net now src dst sz b = net) ∧
    ((∀ f ∈ net.all_flows, f.src ≠ f.dst) → src = dst →
      send net now src dst sz b = net) ∧
    ((∀ f ∈ net.all_flows, f.dst ≠ -1) → dst = -1 →
      send net now src dst sz b = net) ∧
    (∀ f, get_flow_by_src_dst net.all_flows src dst = some f →
      (send net now src dst sz b).injected = net.injected ++ [(src,
        { time := now, size := sz, packet_id := net.send_packet_num src,
          src := src, dst := dst, flow_id := f.flow_id,
          is_broadcast := b,
          last_hop := if b then some src else none })] ∧
      (send net now src dst sz b).send_packet_num src =
        net.send_packet_num src + 1 ∧
      ∀ v, v ≠ src → (send net now src dst sz b).send_packet_num v =
        net.send_packet_num v) := by
  refine ⟨?_, ?_, ?_, ?_⟩
  · intro hnone
    unfold send
    rw [hnone]
  · intro hall heq
    subst heq
    unfold send
    have hnone : get_flow_by_src_dst net.all_flows src src = none := by
      unfold get_flow_by_src_dst
      rw [List.find?_eq_none]
      intro f hf
      simp only [Bool.and_eq_true, beq_iff_eq, not_and]
      intro h1 h2
      exact hall f hf (h1.trans h2.symm)
    rw [hnone]
  · intro hall heq
    subst heq
    unfold send
    have hnone : get_flow_by_src_dst net.all_flows src (-1) = none := by
      unfold get_flow_by_src_dst
      rw [List.find?_eq_none]
      intro f hf
      simp only [Bool.and_eq_true, beq_iff_eq, not_and]
      intro _ h2
      exact hall f hf h2
    rw [hnone]
  · intro f hsome
    unfold send
    rw [hsome]
    refine ⟨rfl, ?_, ?_⟩
    · simp
    · intro v hv
      simp [hv]

/-- Witness for `send_flow_gating` on the three-node star state: the
no-flow branches for `src = dst` and `dst = -1`, and the flow-found
branch for the pair `(1, 2)`. -/
theorem send_flow_gating_witness :
    (send { all_flows := [{ flow_id := 0, src := 1, dst := 2, path := [1, 0, 2] },
              { flow_id := 1, src := 2, dst := 1, path := [2, 0, 1] }],
            send_packet_num := fun _ => 0, injected := [] } 0 1 1 5 false =
      { all_flows := [{ flow_id := 0, src := 1, dst := 2, path := [1, 0, 2] },
              { flow_id := 1, src := 2, dst := 1, path := [2, 0, 1] }],
        send_packet_num := fun _ => 0, injected := [] }) ∧
    (send { all_flows := [{ flow_id := 0, src := 1, dst := 2, path := [1, 0, 2] },
              { flow_id := 1, src := 2, dst := 1, path := [2, 0, 1] }],
            send_packet_num := fun _ => 0, injected := [] } 0 1 (-1) 5 true =
      { all_flows := [{ flow_id := 0, src := 1, dst := 2, path := [1, 0, 2] },
              { flow_id := 1, src := 2, dst := 1, path := [2, 0, 1] }],
        send_packet_num := fun _ => 0, injected := [] }) ∧
    (send { all_flows := [{ flow_id := 0, src := 1, dst := 2, path := [1, 0, 2] },
              { flow_id := 1, src := 2, dst := 1, path := [2, 0, 1] }],
            send_packet_num := fun _ => 0, injected := [] } 0 1 2 5 false).injected =
      [(1, { time := 0, size := 5, packet_id := 0, src := 1, dst := 2,
             flow_id := 0, is_broadcast := false, last_hop := none })] := by
  refine ⟨?_, ?_, ?_⟩
  · exact (send_flow_gating _ 0 1 1 5 false).2.1 (by decide) rfl
  · exact (send_flow_gating _ 0 1 (-1) 5 true).2.2.1 (by decide) rfl
  · have h := ((send_flow_gating
      { all_flows := [{ flow_id := 0, src := 1, dst := 2, path := [1, 0, 2] },
          { flow_id := 1, src := 2, dst := 1, path := [2, 0, 1] }],
        send_packet_num := fun _ => 0, injected := [] } 0 1 2 5 false).2.2.2
      { flow_id := 0, src := 1, dst := 2, path := [1, 0, 2] } (by decide)).1
    simpa using h

/-- The network state of `create_star_network_with_broadcast(3)` as far
as `send` is concerned: the flows generated for hosts `{1, 2}` over the
star graph, all counters zero, nothing yet injected.  This is the state
in which `BroadcastPSAllReduce.reduce` (with workers `[1, 2]`, so
`ps_node = 1`) issues its broadcast phase
`send(env, network, 1, -1, message, is_broadcast=True)`. -/
def starNet3 : NetworkState :=
  { all_flows := (generate_all_flows
      (fun v => if v = 0 then [1, 2] else if v = 1 then [0]
        else if v = 2 then [0] else []) [1, 2] 10).getD [],
    send_packet_num := fun _ => 0,
    injected := [] }

/-- C3: evaluation of `send` at the broadcast phase of
`BroadcastPSAllReduce.reduce` (`src = ps_node = 1`, `dst = -1`,
`is_broadcast = True`).  Because `send` resolves a unicast flow before
consulting `is_broadcast`, and no flow has destination `-1`, the call
returns with nothing injected and no counter change — no flood packet
is ever constructed or delivered, contradicting the specified broadcast
behaviour (a unicast send on the same state does inject a packet). -/
theorem broadcast_send_injects_nothing :
    send starNet3 0 1 (-1) 5 true = starNet3 ∧
    (send starNet3 0 1 (-1) 5 true).injected = [] ∧
    (send starNet3 0 1 (-1) 5 true).send_packet_num 1 = 0 ∧
    (send starNet3 0 1 2 5 false).injected ≠ [] :=
  ⟨rfl, rfl, rfl, by decide⟩

/-! ## Star builder (`src/topos/star.py`, `src/topos/star_with_broadcast.py`)

    G.add_node(0, type="switch")
    for i in range(1, num_nodes):
        G.add_node(i, type="host")
        G.add_edge(0, i)

Neither builder validates `num_nodes`; no code path raises for any
value (for `num_nodes <= 1` the loop body never runs and the graph is
the lone central switch). -/

/-- Spec error taxonomy for topology construction; the code never
raises it in the star builders. -/
inductive TopoError
  | invalidTopologyParameter
  deriving Repr, DecidableEq

/-- The graph produced by the star builders: node `0` as central
switch, nodes `1 .. num_nodes-1` as hosts, one edge from the center to
each host. -/
structure StarGraph where
  switches : List Nat
  hosts : List Nat
  edges : List (Nat × Nat)
  deriving Repr, DecidableEq

/-- `create_star_network` / `create_star_network_with_broadcast`
(graph-construction part; both build the identical graph). -/
def create_star_network (num_nodes : Nat) : Except TopoError StarGraph :=
  .ok { switches := [0],
        hosts := (List.range (num_nodes - 1)).map (fun i => 1 + i),
        edges := (List.range (num_nodes - 1)).map (fun i => (0, 1 + i)) }

/-- C8 counterexample: a star build request with host count `0`
(`num_nodes = 1`, i.e. requested host count `< 1`) does not fail with
`InvalidTopologyParameter` — or at all: it succeeds and returns the
lone central switch. -/
theorem star_no_validation_counterexample :
    create_star_network 1 = .ok { switches := [0], hosts := [], edges := [] } ∧
    (∀ e, create_star_network 1 ≠ .error e) := by
  refine ⟨rfl, fun e h => ?_⟩
  simp [create_star_network] at h

/-- C8 (amended): star construction performs no host-count validation
and never fails; for every `num_nodes` it produces exactly one central
switch (node `0`) and `num_nodes - 1` distinct host nodes, each joined
to the center by exactly one edge, and no other edges. -/
theorem star_construction_structure (num_nodes : Nat) :
    ∃ g : StarGraph, create_star_network num_nodes = .ok g ∧
      g.switches = [0] ∧
      g.hosts.length = num_nodes - 1 ∧
      g.hosts.Nodup ∧
      g.edges.length = num_nodes - 1 ∧
      g.edges.Nodup ∧
      (∀ h ∈ g.hosts, (0, h) ∈ g.edges) ∧
      (∀ e ∈ g.edges, e.1 = 0 ∧ e.2 ∈ g.hosts) := by
  refine ⟨_, rfl, rfl, by simp, ?_, by simp, ?_, ?_, ?_⟩
  · exact (List.nodup_range _).map (fun a b => by omega)
  · refine (List.nodup_range _).map (fun a b hab => ?_)
    have := (Prod.mk.injEq .. ▸ hab).2
    omega
  · intro h hmem
    obtain ⟨i, hi, rfl⟩ := List.mem_map.mp hmem
    exact List.mem_map_of_mem _ hi
  · intro e hmem
    obtain ⟨i, hi, rfl⟩ := List.mem_map.mp hmem
    exact ⟨rfl, List.mem_map_of_mem _ hi⟩

/-! ## Collective constructors and the empty participant set

`RingAllReduce.__init__` (`src/collective/ring_allreduce.py`):

    self.workers = sorted(workers)
    self.n_workers = len(workers)
    self.data_size = data_size
    self.chunk_size = data_size // self.n_workers   # ZeroDivisionError if empty

`HierarchicalRingAllReduce.__init__` first calls the above, then groups
workers into pods by the prefix of the id before the underscore
(abstracted here as a function `podOf`).

`PSAllReduce.__init__` (`src/collective/ps_allreduce.py`):

    self.workers = sorted(workers)
    ...
    self.ps_node = min(self.workers)   # ValueError if empty

`TreeAllReduce.__init__` (`src/collective/tree_allreduce.py`) builds
`self.tree` (parent/children records over the sorted workers using
`parent_idx = (i - 1) // 2`) and `self.levels` (breadth-first layers
from the root); none of its statements can raise, on any input.
`InvalidCollectiveConfiguration` appears nowhere in the code. -/

/-- Python-level failure modes of the constructors, plus the spec's
`InvalidCollectiveConfiguration`, which no code path produces. -/
inductive PyError
  | zeroDivisionError
  | valueErrorEmptyMin
  | invalidCollectiveConfiguration
  deriving Repr, DecidableEq

/-- State built by `RingAllReduce.__init__`. -/
structure RingState where
  workers : List Nat
  n_workers : Nat
  data_size : Nat
  chunk_size : Nat
  deriving Repr, DecidableEq

/-- `RingAllReduce.__init__`: `data_size // 0` raises
`ZeroDivisionError` on an empty participant list. -/
def ringInit (workers : List Nat) (data_size : Nat) :
    Except PyError RingState :=
  if workers.length = 0 then .error .zeroDivisionError
  else .ok { workers := List.insertionSort (· ≤ ·) workers,
             n_workers := workers.length,
             data_size := data_size,
             chunk_size := data_size / workers.length }

/-- State built by `PSAllReduce.__init__`. -/
structure PSState where
  workers : List Nat
  n_workers : Nat
  data_size : Nat
  ps_node : Nat
  deriving Repr, DecidableEq

/-- `PSAllReduce.__init__`: `min(self.workers)` raises `ValueError` on
an empty participant list. -/
def psInit (workers : List Nat) (data_size : Nat) :
    Except PyError PSState :=
  match workers.min? with
  | none => .error .valueErrorEmptyMin
  | some m => .ok { workers := List.insertionSort (· ≤ ·) workers,
                    n_workers := workers.length,
                    data_size := data_size,
                    ps_node := m }

/-- Pod grouping of `HierarchicalRingAllReduce._group_workers_by_pod`,
with the id-string prefix extraction `worker.split('_')[0]` abstracted
as `podOf`; pods are recorded in first-seen order. -/
def groupByPod (podOf : Nat → Nat) (workers : List Nat) :
    List (Nat × List Nat) :=
  workers.foldl (fun acc w =>
    if acc.any (fun e => e.1 == podOf w) then
      acc.map (fun e => if e.1 == podOf w then (e.1, e.2 ++ [w]) else e)
    else acc ++ [(podOf w, [w])]) []

/-- State built by `HierarchicalRingAllReduce.__init__`. -/
structure HierState where
  ring : RingState
  pods : List (Nat × List Nat)
  deriving Repr, DecidableEq

/-- `HierarchicalRingAllReduce.__init__`: runs the ring constructor
first (so the empty case dies there), then groups pods. -/
def hierarchicalRingInit (workers : List Nat) (podOf : Nat → Nat)
    (data_size : Nat) : Except PyError HierState :=
  match ringInit workers data_size with
  | .error e => .error e
  | .ok rs => .ok { ring := rs, pods := groupByPod podOf workers }

/-- One record of `TreeAllReduce`'s tree dict: worker, parent,
children. -/
structure TreeEntry where
  worker : Nat
  parent : Option Nat
  children : List Nat
  deriving Repr, DecidableEq

/-- `tree[worker]['parent'] = parent`. -/
def alSetParent (t : List TreeEntry) (w p : Nat) : List TreeEntry :=
  t.map (fun e => if e.worker = w then { e with parent := some p } else e)

/-- `tree[parent]['children'].append(worker)`. -/
def alAddChild (t : List TreeEntry) (p c : Nat) : List TreeEntry :=
  t.map (fun e => if e.worker = p then { e with children := e.children ++ [c] } else e)

/-- `TreeAllReduce._build_logical_tree` over the (sorted) worker list:
entry `i > 0` gets parent `workers[(i-1)//2]`, which also records the
child link. -/
def build_logical_tree (workers : List Nat) : List TreeEntry :=
  workers.enum.foldl (fun t iw =>
    if iw.1 = 0 then t
    else
      let parent := workers.getD ((iw.1 - 1) / 2) 0
      alAddChild (alSetParent t iw.2 parent) parent iw.2)
    (workers.map (fun w => { worker := w, parent := none, children := [] }))

/-- `tree[node]['children']` lookup. -/
def tree_children (t : List TreeEntry) (w : Nat) : List Nat :=
  ((t.find? (fun e => e.worker == w)).map (fun e => e.children)).getD []

/-- The `while current_level:` loop of `_get_tree_levels`, fuelled by
the worker count (tree depth is bounded by it). -/
def tree_levels_aux (t : List TreeEntry) : Nat → List Nat → List (List Nat)
  | 0, _ => []
  | fuel + 1, current =>
    if current = [] then []
    else current :: tree_levels_aux t fuel (current.flatMap (tree_children t))

/-- `TreeAllReduce._get_tree_levels`: returns `[]` for no workers,
otherwise the breadth-first layers from the root `workers[0]`. -/
def get_tree_levels (workers : List Nat) (t : List TreeEntry) :
    List (List Nat) :=
  match workers with
  | [] => []
  | w :: _ => tree_levels_aux t (workers.length + 1) [w]

/-- State built by `TreeAllReduce.__init__`; its construction has no
failure path. -/
structure TreeState where
  workers : List Nat
  tree : List TreeEntry
  levels : List (List Nat)
  deriving Repr, DecidableEq

/-- `TreeAllReduce.__init__`: never raises. -/
def treeInit (workers : List Nat) (_data_size : Nat) :
    Except PyError TreeState :=
  .ok { workers := List.insertionSort (· ≤ ·) workers,
        tree := build_logical_tree (List.insertionSort (· ≤ ·) workers),
        levels := get_tree_levels (List.insertionSort (· ≤ ·) workers)
          (build_logical_tree (List.insertionSort (· ≤ ·) workers)) }

/-- `tree[worker]['parent']` lookup. -/
def tree_parent (t : List TreeEntry) (w : Nat) : Option Nat :=
  ((t.find? (fun e => e.worker == w)).map (fun e => e.parent)).getD none

/-- The `(worker, parent)` send requests issued by the reduce phase of
`TreeAllReduce.reduce`: levels below the root, deepest first. -/
def treeReduceSends (st : TreeState) : List (Nat × Option Nat) :=
  (st.levels.drop 1).reverse.flatMap (fun level =>
    level.map (fun w => (w, tree_parent st.tree w)))

/-- The `(worker, child)` send requests issued by the broadcast phase
of `TreeAllReduce.reduce`: all levels but the last, root first. -/
def treeBroadcastSends (st : TreeState) : List (Nat × Nat) :=
  st.levels.dropLast.flatMap (fun level =>
    level.flatMap (fun w => (tree_children st.tree w).map (fun c => (w, c))))

/-- C9 counterexample: `TreeAllReduce` invoked with an empty
participant set does not fail at all — construction succeeds and a full
run issues no sends — so in particular it does not fail with
`InvalidCollectiveConfiguration`. -/
theorem tree_empty_workers_no_failure :
    treeInit [] 100 = .ok { workers := [], tree := [], levels := [] } ∧
    treeReduceSends { workers := [], tree := [], levels := [] } = [] ∧
    treeBroadcastSends { workers := [], tree := [], levels := [] } = [] :=
  ⟨rfl, rfl, rfl⟩

/-- C9 (amended): on an empty participant set, Ring and
Hierarchical-Ring AllReduce fail in the constructor with Python's
`ZeroDivisionError` (from `data_size // 0`) and Parameter-Server
AllReduce with `ValueError` (from `min` of an empty sequence) — in all
three cases before any send is issued, since construction never
returns a state — while Tree AllReduce does not fail: its constructor
succeeds and its run issues no sends.  None of the four produces the
spec's `InvalidCollectiveConfiguration`, which the code never defines
or raises. -/
theorem empty_workers_failure_modes (data_size : Nat) (podOf : Nat → Nat) :
    ringInit [] data_size = .error .zeroDivisionError ∧
    hierarchicalRingInit [] podOf data_size = .error .zeroDivisionError ∧
    psInit [] data_size = .error .valueErrorEmptyMin ∧
    ringInit [] data_size ≠ .error .invalidCollectiveConfiguration ∧
    psInit [] data_size ≠ .error .invalidCollectiveConfiguration ∧
    ∃ st, treeInit [] data_size = .ok st ∧
      treeReduceSends st = [] ∧ treeBroadcastSends st = [] := by
  refine ⟨rfl, rfl, rfl, by simp [ringInit], by simp [psInit, List.min?], ?_⟩
  exact ⟨_, rfl, rfl, rfl⟩

/-! ## The broadcast forwarding engine (`src/switch.py`, `BroadcastSwitch.put`)

    if getattr(packet, 'is_broadcast'):
        if not hasattr(packet, 'history_hop'):
            packet.history_hop = []
        if int(self.node_id) in packet.history_hop:
            ...; return                                  # drop
        packet.history_hop.append(int(self.node_id))
        last_hop = packet.last_hop
        if self.is_host and int(last_hop) != int(self.node_id):
            self.forward_to_sink(packet); return         # host sink
        if int(last_hop) == int(self.node_id):
            last_hop_port = self.node_id                 # origin case
        else:
            last_hop_port = self.nexthop_to_port[int(last_hop)]   # KeyError if absent
        packet.last_hop = self.node_id
        for port_num, port in enumerate(self.ports):
            if port_num != int(last_hop_port) and port is not None and port.out is not None:
                port.put(copy.deepcopy(packet))

`nexthop_to_port` is a Python dict (a finite map; missing key raises
`KeyError`).  `self.ports` is the ns.py port list; `port.out` is the
attached peer device, embedded as the peer's node id (or `none` when
unattached). -/

/-- A broadcast packet as seen by `BroadcastSwitch.put`. -/
structure BPacket where
  packet_id : Nat
  last_hop : Nat
  history_hop : List Nat
  deriving Repr, DecidableEq

/-- One `BroadcastSwitch` device: its id, host flag, `nexthop_to_port`
dict, and ports (entry = attached peer's node id, `none` if the port
has no `out`). -/
structure SwitchNodeCfg where
  node_id : Nat
  is_host : Bool
  nexthop_to_port : Nat → Option Nat
  ports : List (Option Nat)

/-- Outcome of one `put` call. -/
inductive PutResult
  | dropped
  | sunk (pkt : BPacket)
  | forwarded (outs : List (Nat × Nat × BPacket))
  | keyError
  deriving Repr, DecidableEq

/-- `BroadcastSwitch.put` on a broadcast packet.  `forwarded` lists the
`(port index, peer id, copy)` hand-offs in port order. -/
def broadcastPut (cfg : SwitchNodeCfg) (pkt : BPacket) : PutResult :=
  if pkt.history_hop.contains cfg.node_id then .dropped
  else
    let pkt1 : BPacket := { pkt with history_hop := pkt.history_hop ++ [cfg.node_id] }
    if cfg.is_host && !(pkt1.last_hop == cfg.node_id) then .sunk pkt1
    else
      match (if pkt1.last_hop == cfg.node_id then some cfg.node_id
             else cfg.nexthop_to_port pkt1.last_hop) with
      | none => .keyError
      | some last_hop_port =>
        let pkt2 : BPacket := { pkt1 with last_hop := cfg.node_id }
        .forwarded (cfg.ports.enum.filterMap (fun pe =>
          match pe.2 with
          | none => none
          | some peer =>
            if pe.1 ≠ last_hop_port then some (pe.1, peer, pkt2) else none))

/-- A topology of `BroadcastSwitch` devices, keyed by node id as the
graph's node-attribute dict is. -/
structure Topo where
  find : Nat → Option SwitchNodeCfg

/-- State of a flood: pending `(device, packet)` deliveries in FIFO
order, the nodes that processed (passed the duplicate check), and the
host sink deliveries. -/
structure FloodState where
  queue : List (Nat × BPacket)
  processed : List Nat
  sunk : List Nat
  deriving Repr, DecidableEq

/-- Run the flood to quiescence: repeatedly `put` the head delivery.
`none` on a missing device, a `KeyError`, or fuel exhaustion with work
remaining. -/
def floodRun (t : Topo) : Nat → FloodState → Option FloodState
  | 0, s => if s.queue = [] then some s else none
  | fuel + 1, s =>
    match s.queue with
    | [] => some s
    | (nid, pkt) :: rest =>
      match t.find nid with
      | none => none
      | some cfg =>
        match broadcastPut cfg pkt with
        | .keyError => none
        | .dropped => floodRun t fuel { s with queue := rest }
        | .sunk _ => floodRun t fuel
            { queue := rest, processed := s.processed ++ [nid],
              sunk := s.sunk ++ [nid] }
        | .forwarded outs => floodRun t fuel
            { queue := rest ++ outs.map (fun o => (o.2.1, o.2.2)),
              processed := s.processed ++ [nid], sunk := s.sunk }

/-- The packet as first handed to the origin device by `_send_packet`:
`send` set `last_hop = src`; `put` will initialize the missing
`history_hop` to `[]`. -/
def initBPacket (origin : Nat) : BPacket :=
  { packet_id := 0, last_hop := origin, history_hop := [] }

/-- A 5-node topology of `BroadcastSwitch` devices containing a cycle:
host `10` on switch `1`, host `11` on switch `2`, switches `1-2`,
`1-3`, `2-3` fully wired. -/
def triHostA : SwitchNodeCfg :=
  { node_id := 10, is_host := true,
    nexthop_to_port := fun n => if n = 1 then some 0 else none,
    ports := [some 1] }

def triHostB : SwitchNodeCfg :=
  { node_id := 11, is_host := true,
    nexthop_to_port := fun n => if n = 2 then some 0 else none,
    ports := [some 2] }

def triSwitch1 : SwitchNodeCfg :=
  { node_id := 1, is_host := false,
    nexthop_to_port := fun n =>
      if n = 10 then some 0 else if n = 2 then some 1
      else if n = 3 then some 2 else none,
    ports := [some 10, some 2, some 3] }

def triSwitch2 : SwitchNodeCfg :=
  { node_id := 2, is_host := false,
    nexthop_to_port := fun n =>
      if n = 1 then some 0 else if n = 3 then some 1
      else if n = 11 then some 2 else none,
    ports := [some 1, some 3, some 11] }

def triSwitch3 : SwitchNodeCfg :=
  { node_id := 3, is_host := false,
    nexthop_to_port := fun n =>
      if n = 1 then some 0 else if n = 2 then some 1 else none,
    ports := [some 1, some 2] }

def triangleTopo : Topo :=
  { find := fun i =>
      if i = 10 then some triHostA
      else if i = 11 then some triHostB
      else if i = 1 then some triSwitch1
      else if i = 2 then some triSwitch2
      else if i = 3 then some triSwitch3
      else none }

/-- C1 counterexample: on a cyclic topology of `BroadcastSwitch`
devices (the 5-node `triangleTopo`), one broadcast injected at host
`10` reaches host `11`'s sink twice, and nodes `2`, `3` and `11` each
process the same broadcast instance twice — the per-copy visited set
(deep-copied at each fan-out) only prevents a copy from revisiting its
own path, not duplicate arrivals over distinct paths. -/
theorem broadcast_duplicate_delivery_cycle :
    floodRun triangleTopo 100
        { queue := [(10, initBPacket 10)], processed := [], sunk := [] } =
      some { queue := [], processed := [10, 1, 2, 3, 3, 11, 2, 11],
             sunk := [11, 11] } ∧
    ([11, 11] : List Nat).count 11 = 2 ∧
    ([10, 1, 2, 3, 3, 11, 2, 11] : List Nat).count 2 = 2 ∧
    ¬ ([10, 1, 2, 3, 3, 11, 2, 11] : List Nat).Nodup :=
  ⟨by decide, by decide, by decide, by decide⟩

/-! ### The star topology with broadcast switches

`create_star_network_with_broadcast(n)` wires node `0` (the central
switch) to hosts `1 .. n-1`; every device gets `nports = n - 1` ports.
Modelled from the spec for the `generate_fib` wiring (ns.py library
code): "derive neighbor → port from the node's physical adjacency
order" — the center's port `i` attaches to host `i+1`, each host's
port `0` attaches to the center, and a host's remaining `n - 2` ports
have no `out`. -/

/-- The central broadcast switch of the star. -/
def starCenterCfg (n : Nat) : SwitchNodeCfg :=
  { node_id := 0, is_host := false,
    nexthop_to_port := fun nh =>
      if 1 ≤ nh ∧ nh ≤ n - 1 then some (nh - 1) else none,
    ports := (List.range (n - 1)).map (fun i => some (i + 1)) }

/-- Host `h` of the star. -/
def starHostCfg (n h : Nat) : SwitchNodeCfg :=
  { node_id := h, is_host := true,
    nexthop_to_port := fun nh => if nh = 0 then some 0 else none,
    ports := some 0 :: List.replicate (n - 2) none }

/-- The star topology on `n` nodes (center plus `n - 1` hosts). -/
def starTopoB (n : Nat) : Topo :=
  { find := fun i =>
      if i = 0 then some (starCenterCfg n)
      else if 1 ≤ i ∧ i ≤ n - 1 then some (starHostCfg n i)
      else none }

lemma filterMap_enumFrom_replicate_none {α : Type}
    (g : Nat × Option Nat → Option α) (hg : ∀ i, g (i, none) = none) :
    ∀ (k s : Nat),
      ((List.replicate k (none : Option Nat)).enumFrom s).filterMap g = [] := by
  intro k
  induction k with
  | zero => intro s; simp
  | succ k ih =>
    intro s
    rw [List.replicate_succ, List.enumFrom_cons, List.filterMap_cons, hg]
    exact ih (s + 1)

lemma filterMap_if {α : Type} (l : List Nat) (ex : Nat) (f : Nat → α) :
    l.filterMap (fun i => if i ≠ ex then some (f i) else none) =
      (l.filter (fun i => i ≠ ex)).map f := by
  induction l with
  | nil => simp
  | cons x xs ih =>
    by_cases hx : x = ex
    · subst hx
      rw [List.filterMap_cons, if_neg (by simp),
        List.filter_cons_of_neg (by simp)]
      exact ih
    · rw [List.filterMap_cons, if_pos hx,
        List.filter_cons_of_pos (by simp [hx]), List.map_cons]
      rw [ih]

lemma zip_self {α : Type} (l : List α) :
    l.zip l = l.map (fun x => (x, x)) := by
  induction l with
  | nil => simp
  | cons x xs ih => simp [ih]

lemma enum_map_range {α : Type} (m : Nat) (f : Nat → α) :
    ((List.range m).map f).enum = (List.range m).map (fun i => (i, f i)) := by
  rw [List.enum_map, List.enum_eq_zip_range, List.length_range, zip_self,
    List.map_map]
  rfl

/-- At the origin host (`last_hop` equals the node's own id) the put
fans out through port `0` toward the center. -/
lemma broadcastPut_star_origin (n h : Nat) (hh : 1 ≤ h) :
    broadcastPut (starHostCfg n h) (initBPacket h) =
      .forwarded [(0, 0, { packet_id := 0, last_hop := h, history_hop := [h] })] := by
  have h0 : (0 : Nat) ≠ h := by omega
  unfold broadcastPut starHostCfg initBPacket
  dsimp only
  rw [List.enum_cons]
  simp [h0]
  have hnil := filterMap_enumFrom_replicate_none
    (fun pe : Nat × Option Nat => match pe.2 with
      | none => none
      | some peer => if pe.1 = h then none
          else some (pe.1, peer,
            ({ packet_id := 0, last_hop := h, history_hop := [h] } : BPacket)))
    (fun _ => rfl) (n - 2) 1
  intro a b hmem
  exact List.filterMap_eq_nil_iff.mp hnil (a, b) hmem

/-- A non-origin delivery at the center floods every port except the
one toward the packet's last hop. -/
lemma broadcastPut_star_center (n h : Nat) (hh : 1 ≤ h) (hn : h < n) :
    broadcastPut (starCenterCfg n)
        { packet_id := 0, last_hop := h, history_hop := [h] } =
      .forwarded (((List.range (n - 1)).filter (fun i => i ≠ h - 1)).map
        (fun i => (i, i + 1,
          { packet_id := 0, last_hop := 0, history_hop := [h, 0] }))) := by
  have h0 : h ≠ 0 := by omega
  have hle : 1 ≤ h ∧ h ≤ n - 1 := by omega
  unfold broadcastPut starCenterCfg
  dsimp only
  rw [enum_map_range]
  simp [h0, hle, List.filterMap_map]
  rw [if_neg (Ne.symm h0)]
  have key : List.filterMap
      ((fun pe : Nat × Option Nat =>
          match pe.2 with
          | none => none
          | some peer =>
            if pe.1 = h - 1 then none
            else some (pe.1, peer,
              ({ packet_id := 0, last_hop := 0, history_hop := [h, 0] } : BPacket))) ∘
        fun i => (i, some (i + 1)))
      (List.range (n - 1)) =
      List.filterMap (fun i =>
        if i = h - 1 then none
        else some (i, i + 1,
          ({ packet_id := 0, last_hop := 0, history_hop := [h, 0] } : BPacket)))
      (List.range (n - 1)) := rfl
  rw [key]
  clear key
  congr 1
  generalize List.range (n - 1) = l
  induction l with
  | nil => simp
  | cons x xs ih =>
    by_cases hx : x = h - 1
    · subst hx
      rw [List.filterMap_cons, if_pos rfl, List.filter_cons_of_neg (by simp)]
      exact ih
    · rw [List.filterMap_cons, if_neg hx, List.filter_cons_of_pos (by simp [hx]),
        List.map_cons]
      dsimp only
      congr 1

/-- A non-origin broadcast delivery at a non-origin host terminates at
the host sink with the host appended to the visited set. -/
lemma broadcastPut_star_sink (n h j : Nat) (hj : 1 ≤ j) (hjh : j ≠ h) :
    broadcastPut (starHostCfg n j)
        { packet_id := 0, last_hop := 0, history_hop := [h, 0] } =
      .sunk { packet_id := 0, last_hop := 0, history_hop := [h, 0, j] } := by
  have h1 : j ≠ 0 := by omega
  unfold broadcastPut starHostCfg
  dsimp only
  simp [hjh, h1, Ne.symm h1]

lemma floodRun_all_sunk (t : Topo) :
    ∀ (q : List (Nat × BPacket)) (fuel : Nat) (proc sk : List Nat),
    q.length ≤ fuel →
    (∀ x ∈ q, ∃ cfg pv, t.find x.1 = some cfg ∧
      broadcastPut cfg x.2 = .sunk pv) →
    floodRun t fuel { queue := q, processed := proc, sunk := sk } =
      some { queue := [], processed := proc ++ q.map Prod.fst,
             sunk := sk ++ q.map Prod.fst } := by
  intro q
  induction q with
  | nil =>
    intro fuel proc sk _ _
    cases fuel with
    | zero => simp [floodRun]
    | succ fuel => simp [floodRun]
  | cons x q ih =>
    intro fuel proc sk hf hall
    obtain ⟨nid, pkt⟩ := x
    cases fuel with
    | zero => simp at hf
    | succ fuel =>
      obtain ⟨cfg, pv, hfind, hput⟩ := hall (nid, pkt) (List.mem_cons_self _ _)
      dsimp only at hfind hput
      rw [floodRun]
      dsimp only
      rw [hfind]
      dsimp only
      rw [hput]
      dsimp only
      rw [ih fuel (proc ++ [nid]) (sk ++ [nid]) (by simpa using hf)
        (fun y hy => hall y (List.mem_cons_of_mem _ hy))]
      simp

lemma length_filter_ne_range (m ex : Nat) (hex : ex < m) :
    ((List.range m).filter (fun i => i ≠ ex)).length = m - 1 := by
  induction m with
  | zero => omega
  | succ m ih =>
    rw [List.range_succ, List.filter_append]
    by_cases hm : ex = m
    · subst hm
      rw [List.filter_cons_of_neg (by simp)]
      have hall : (List.range ex).filter (fun i => i ≠ ex) = List.range ex :=
        List.filter_eq_self.mpr (fun a ha => by
          simpa using Nat.ne_of_lt (List.mem_range.mp ha))
      rw [hall]
      simp
    · have hex2 : ex < m := by omega
      rw [List.filter_cons_of_pos (by simp [Ne.symm hm])]
      rw [List.length_append, ih hex2]
      simp
      omega

lemma starTopoB_find_host (n h : Nat) (hh : 1 ≤ h) (hn : h < n) :
    (starTopoB n).find h = some (starHostCfg n h) := by
  unfold starTopoB
  dsimp only
  rw [if_neg (by omega), if_pos (by omega)]

lemma starTopoB_find_center (n : Nat) :
    (starTopoB n).find 0 = some (starCenterCfg n) := by
  unfold starTopoB
  dsimp only
  rw [if_pos rfl]

/-- C1 (amended): on every star topology built with broadcast switches
and every origin host `h`, injecting one broadcast packet at `h` runs
the flood to quiescence with every other host's sink receiving exactly
one copy, the origin's sink receiving none, and no node processing the
instance more than once; and any node whose id is already in a packet's
visited set drops that packet. -/
theorem star_broadcast_exactly_once (n h : Nat) (hh : 1 ≤ h) (hn : h < n) :
    ∃ res : FloodState,
      floodRun (starTopoB n) (n + 2)
          { queue := [(h, initBPacket h)], processed := [], sunk := [] } =
        some res ∧
      res.processed.Nodup ∧
      (∀ j, 1 ≤ j → j < n → j ≠ h → res.sunk.count j = 1) ∧
      res.sunk.count h = 0 ∧
      res.sunk.length = n - 2 ∧
      (∀ cfg pkt, cfg.node_id ∈ pkt.history_hop →
        broadcastPut cfg pkt = .dropped) := by
  have hfh := starTopoB_find_host n h hh hn
  have hf0 := starTopoB_find_center n
  have hput1 := broadcastPut_star_origin n h hh
  have hput2 := broadcastPut_star_center n h hh hn
  set flist := (List.range (n - 1)).filter (fun i => i ≠ h - 1) with hflist
  set js := flist.map (fun i => i + 1) with hjs
  have hrun : floodRun (starTopoB n) (n + 2)
      { queue := [(h, initBPacket h)], processed := [], sunk := [] } =
      some { queue := [], processed := (h :: 0 :: js : List Nat), sunk := js } := by
    show floodRun (starTopoB n) (n + 1 + 1) _ = _
    rw [floodRun]
    dsimp only
    rw [hfh]
    dsimp only
    rw [hput1]
    dsimp only
    simp only [List.nil_append, List.map_cons, List.map_nil]
    rw [floodRun]
    dsimp only
    rw [hf0]
    dsimp only
    rw [hput2]
    dsimp only
    have hq : List.map (fun o : Nat × Nat × BPacket => (o.2.1, o.2.2))
        (List.map (fun i => (i, i + 1,
          ({ packet_id := 0, last_hop := 0, history_hop := [h, 0] } : BPacket))) flist) =
        flist.map (fun i => (i + 1,
          ({ packet_id := 0, last_hop := 0, history_hop := [h, 0] } : BPacket))) := by
      rw [List.map_map]
      rfl
    rw [hq]
    have hlen : (flist.map (fun i => (i + 1,
        ({ packet_id := 0, last_hop := 0, history_hop := [h, 0] } : BPacket)))).length ≤ n := by
      rw [List.length_map]
      calc flist.length ≤ (List.range (n - 1)).length := List.length_filter_le _ _
        _ ≤ n := by simp
    have hsunkall : ∀ x ∈ flist.map (fun i => (i + 1,
        ({ packet_id := 0, last_hop := 0, history_hop := [h, 0] } : BPacket))),
        ∃ cfg pv, (starTopoB n).find x.1 = some cfg ∧
          broadcastPut cfg x.2 = .sunk pv := by
      intro x hx
      obtain ⟨i, hi, rfl⟩ := List.mem_map.mp hx
      obtain ⟨hirange, hine⟩ := List.mem_filter.mp hi
      have hilt : i < n - 1 := List.mem_range.mp hirange
      have hineq : i ≠ h - 1 := by simpa using hine
      refine ⟨starHostCfg n (i + 1), _,
        starTopoB_find_host n (i + 1) (by omega) (by omega),
        broadcastPut_star_sink n h (i + 1) (by omega) (by omega)⟩
    simp only [List.nil_append, List.singleton_append]
    rw [floodRun_all_sunk (starTopoB n) _ n _ _ hlen hsunkall]
    congr 1
    simp [hjs]
  have hjsnodup : js.Nodup := by
    rw [hjs]
    refine List.Nodup.map (fun a b hab => by omega) ?_
    exact (List.nodup_range _).filter _
  have h0notin : (0 : Nat) ∉ js := by
    rw [hjs]
    intro hmem
    obtain ⟨i, _, habs⟩ := List.mem_map.mp hmem
    omega
  have hhnotin : h ∉ js := by
    rw [hjs]
    intro hmem
    obtain ⟨i, hi, habs⟩ := List.mem_map.mp hmem
    obtain ⟨_, hine⟩ := List.mem_filter.mp hi
    have : i ≠ h - 1 := by simpa using hine
    omega
  refine ⟨_, hrun, ?_, ?_, ?_, ?_, ?_⟩
  · refine List.nodup_cons.mpr ⟨?_, List.nodup_cons.mpr ⟨h0notin, hjsnodup⟩⟩
    simp only [List.mem_cons]
    rintro (habs | habs)
    · omega
    · exact hhnotin habs
  · intro j hj1 hjn hjne
    refine List.count_eq_one_of_mem hjsnodup ?_
    rw [hjs]
    refine List.mem_map.mpr ⟨j - 1, ?_, by omega⟩
    refine List.mem_filter.mpr ⟨List.mem_range.mpr (by omega), ?_⟩
    simpa using (by omega : j - 1 ≠ h - 1)
  · exact List.count_eq_zero.mpr hhnotin
  · rw [hjs, List.length_map]
    rw [length_filter_ne_range (n - 1) (h - 1) (by omega)]
    omega
  · intro cfg pkt hmem
    unfold broadcastPut
    rw [if_pos (by simpa using hmem)]

/-- Witness for `star_broadcast_exactly_once` at `n = 4`, origin host `2`. -/
theorem star_broadcast_exactly_once_witness :
    ∃ res : FloodState,
      floodRun (starTopoB 4) (4 + 2)
          { queue := [(2, initBPacket 2)], processed := [], sunk := [] } =
        some res ∧
      res.processed.Nodup ∧
      (∀ j, 1 ≤ j → j < 4 → j ≠ 2 → res.sunk.count j = 1) ∧
      res.sunk.count 2 = 0 ∧
      res.sunk.length = 4 - 2 ∧
      (∀ cfg pkt, cfg.node_id ∈ pkt.history_hop →
        broadcastPut cfg pkt = .dropped) :=
  star_broadcast_exactly_once 4 2 (by decide) (by decide)

lemma broadcastPut_origin_eval (cfg : SwitchNodeCfg) (pkt : BPacket)
    (hnotin : cfg.node_id ∉ pkt.history_hop)
    (hlast : pkt.last_hop = cfg.node_id) :
    broadcastPut cfg pkt = .forwarded (cfg.ports.enum.filterMap (fun pe =>
      match pe.2 with
      | none => none
      | some peer => if pe.1 ≠ cfg.node_id then some (pe.1, peer,
          { pkt with history_hop := pkt.history_hop ++ [cfg.node_id],
                     last_hop := cfg.node_id })
        else none)) := by
  unfold broadcastPut
  rw [if_neg (by simpa using hnotin)]
  dsimp only
  rw [hlast]
  simp

lemma map_fst_filterMap_sublist {α γ : Type} (l : List (Nat × α))
    (g : Nat × α → Option (Nat × γ))
    (hg : ∀ pe x, g pe = some x → x.1 = pe.1) :
    ((l.filterMap g).map (fun x => x.1)).Sublist (l.map (fun pe => pe.1)) := by
  induction l with
  | nil => simp
  | cons a l ih =>
    rw [List.filterMap_cons]
    cases hga : g a with
    | none =>
      rw [List.map_cons]
      exact (ih).cons _
    | some x =>
      rw [List.map_cons, List.map_cons, hg a x hga]
      exact (ih).cons₂ _

/-- C4 (amended): a broadcast packet processed at its originating node
(`last_hop` equal to the node's own id, not yet visited) is fanned out
with one copy per attached port whose port number differs from the
node's own id — the code reuses the node id as the excluded
"arrival port" number, so a port numbered like the node id is skipped
even when attached (in the built topologies' host origins, whose single
attached port is `0` and whose ids are nonzero, this floods every
attached port). -/
theorem origin_fanout_ports_ne_id (cfg : SwitchNodeCfg) (pkt : BPacket)
    (hnotin : cfg.node_id ∉ pkt.history_hop)
    (hlast : pkt.last_hop = cfg.node_id) :
    ∃ outs, broadcastPut cfg pkt = .forwarded outs ∧
      (∀ x ∈ outs, x.2.2 =
        { pkt with history_hop := pkt.history_hop ++ [cfg.node_id],
                   last_hop := cfg.node_id }) ∧
      (∀ p peer, ((p, peer,
          ({ pkt with history_hop := pkt.history_hop ++ [cfg.node_id],
                      last_hop := cfg.node_id } : BPacket)) ∈ outs) ↔
        (p ≠ cfg.node_id ∧ cfg.ports[p]? = some (some peer))) ∧
      (outs.map (fun x => x.1)).Nodup := by
  refine ⟨_, broadcastPut_origin_eval cfg pkt hnotin hlast, ?_, ?_, ?_⟩
  · intro x hx
    obtain ⟨pe, _, hg⟩ := List.mem_filterMap.mp hx
    obtain ⟨i, o⟩ := pe
    cases o with
    | none => cases hg
    | some peer =>
      dsimp only at hg
      by_cases hi : i ≠ cfg.node_id
      · rw [if_pos hi] at hg
        obtain rfl := Option.some.inj hg
        rfl
      · rw [if_neg hi] at hg
        cases hg
  · intro p peer
    constructor
    · intro hmem
      obtain ⟨pe, hpe, hg⟩ := List.mem_filterMap.mp hmem
      obtain ⟨i, o⟩ := pe
      cases o with
      | none => cases hg
      | some peer2 =>
        dsimp only at hg
        by_cases hi : i ≠ cfg.node_id
        · rw [if_pos hi] at hg
          simp only [Option.some.injEq, Prod.mk.injEq] at hg
          obtain ⟨hip, hpeer, -⟩ := hg
          subst hip
          subst hpeer
          exact ⟨hi, List.mem_enum_iff_getElem?.mp hpe⟩
        · rw [if_neg hi] at hg
          cases hg
    · rintro ⟨hne, hget⟩
      refine List.mem_filterMap.mpr ⟨(p, some peer), ?_, ?_⟩
      · exact List.mem_enum_iff_getElem?.mpr hget
      · dsimp only
        rw [if_pos hne]
  · have hfst : ∀ (pe : Nat × Option Nat) (x : Nat × Nat × BPacket),
        (match pe.2 with
          | none => none
          | some peer => if pe.1 ≠ cfg.node_id then some (pe.1, peer,
              ({ pkt with history_hop := pkt.history_hop ++ [cfg.node_id],
                          last_hop := cfg.node_id } : BPacket))
            else none) = some x → x.1 = pe.1 := by
      intro pe x hg
      obtain ⟨i, o⟩ := pe
      cases o with
      | none => cases hg
      | some peer =>
        dsimp only at hg
        by_cases hi : i ≠ cfg.node_id
        · rw [if_pos hi] at hg
          obtain rfl := Option.some.inj hg
          rfl
        · rw [if_neg hi] at hg
          cases hg
    have hsub := map_fst_filterMap_sublist cfg.ports.enum _ hfst
    have hnd : (cfg.ports.enum.map (fun pe => pe.1)).Nodup := by
      rw [show (fun pe : Nat × Option Nat => pe.1) = Prod.fst from rfl,
        List.enum_map_fst]
      exact List.nodup_range _
    exact List.Nodup.sublist hsub hnd

/-- C4 counterexample: at the center of the broadcast star (node id
`0`), a broadcast originating at the center skips port `0` even though
it is attached: only host `2` is reached and host `1` (on port `0`)
never receives the flood, so a port is excluded at the origin. -/
theorem origin_fanout_excludes_id_port :
    broadcastPut (starCenterCfg 3) (initBPacket 0) =
      .forwarded [(1, 2, { packet_id := 0, last_hop := 0, history_hop := [0] })] ∧
    (starCenterCfg 3).ports = [some 1, some 2] ∧
    floodRun (starTopoB 3) 10
        { queue := [(0, initBPacket 0)], processed := [], sunk := [] } =
      some { queue := [], processed := [0, 2], sunk := [2] } :=
  ⟨by decide, by decide, by decide⟩

/-- Witness for `origin_fanout_ports_ne_id` at a two-port node with id
`3` holding a fresh self-originated packet. -/
theorem origin_fanout_ports_ne_id_witness :
    ∃ outs, broadcastPut
        { node_id := 3, is_host := false, nexthop_to_port := fun _ => none,
          ports := [some 7, some 8] }
        { packet_id := 0, last_hop := 3, history_hop := [] } = .forwarded outs ∧
      (∀ x ∈ outs, x.2.2 =
        ({ packet_id := 0, last_hop := 3, history_hop := [3] } : BPacket)) ∧
      (∀ p peer, ((p, peer,
          ({ packet_id := 0, last_hop := 3, history_hop := [3] } : BPacket)) ∈ outs) ↔
        (p ≠ 3 ∧ ([some 7, some 8] : List (Option Nat))[p]? = some (some peer))) ∧
      (outs.map (fun x => x.1)).Nodup :=
  origin_fanout_ports_ne_id
    { node_id := 3, is_host := false, nexthop_to_port := fun _ => none,
      ports := [some 7, some 8] }
    { packet_id := 0, last_hop := 3, history_hop := [] }
    (by decide) (by decide)

/-! ### Aliasing of the fanned-out copies (`copy.deepcopy`)

ns.py packets are mutable Python objects, and the fan-out loop hands
each port `port.put(copy.deepcopy(packet))` — a freshly allocated
object per port.  To make aliasing observable, the hand-off is
re-embedded against an explicit heap of packet cells: each port
receives the address of a cell, and `deepcopy` is a fresh allocation
holding the current packet value.  (Handing every port `packet` itself
— the aliasing bug the deepcopy replaced — would give all ports the
same address.) -/

/-- A heap of mutable packet objects; an address is an index. -/
structure Heap where
  cells : List BPacket
  deriving Repr, DecidableEq

/-- Allocate a fresh cell (what `copy.deepcopy` does). -/
def Heap.alloc (h : Heap) (p : BPacket) : Heap × Nat :=
  ({ cells := h.cells ++ [p] }, h.cells.length)

/-- Read the object behind an address. -/
def Heap.get (h : Heap) (a : Nat) : Option BPacket := h.cells[a]?

/-- Mutate the object behind an address (e.g. a later hop updating
`last_hop` or appending to `history_hop` on that copy). -/
def Heap.set (h : Heap) (a : Nat) (p : BPacket) : Heap :=
  { cells := h.cells.set a p }

/-- The fan-out loop with explicit allocation: for every `(port, peer,
copy)` hand-off that `broadcastPut` produces, allocate the deep copy
and hand the port its address. -/
def fanOutHeap (heap : Heap) : List (Nat × Nat × BPacket) → Heap × List (Nat × Nat × Nat)
  | [] => (heap, [])
  | (port, peer, pk) :: rest =>
    let ha := heap.alloc pk
    let hr := fanOutHeap ha.1 rest
    (hr.1, (port, peer, ha.2) :: hr.2)

lemma fanOutHeap_cells (outs : List (Nat × Nat × BPacket)) :
    ∀ heap : Heap,
      (fanOutHeap heap outs).1.cells = heap.cells ++ outs.map (fun o => o.2.2) := by
  induction outs with
  | nil => intro heap; simp [fanOutHeap]
  | cons o rest ih =>
    intro heap
    obtain ⟨port, peer, pk⟩ := o
    rw [fanOutHeap]
    dsimp only
    rw [ih]
    simp [Heap.alloc]

lemma fanOutHeap_addrs (outs : List (Nat × Nat × BPacket)) :
    ∀ heap : Heap,
      (fanOutHeap heap outs).2.map (fun o => o.2.2) =
        (List.range outs.length).map (fun i => heap.cells.length + i) := by
  induction outs with
  | nil => intro heap; simp [fanOutHeap]
  | cons o rest ih =>
    intro heap
    obtain ⟨port, peer, pk⟩ := o
    rw [fanOutHeap]
    dsimp only
    rw [List.map_cons, ih]
    simp only [Heap.alloc, List.length_append, List.length_cons,
      List.range_succ_eq_map, List.map_cons, List.map_map]
    refine congrArg₂ List.cons (by omega) ?_
    refine List.map_congr_left (fun i _ => ?_)
    simp only [Function.comp_apply, List.length_nil]
    omega

/-- Every copy a `put` fans out carries the same updated value: the
visited set extended with this node and `last_hop` set to it. -/
lemma broadcastPut_forwarded_copies (cfg : SwitchNodeCfg) (pkt : BPacket)
    (outs : List (Nat × Nat × BPacket))
    (h : broadcastPut cfg pkt = .forwarded outs) :
    ∀ x ∈ outs, x.2.2 =
      { pkt with history_hop := pkt.history_hop ++ [cfg.node_id],
                 last_hop := cfg.node_id } := by
  unfold broadcastPut at h
  split at h
  · cases h
  · dsimp only at h
    split at h
    · cases h
    · split at h
      · cases h
      · obtain rfl := PutResult.forwarded.inj h
        intro x hx
        obtain ⟨pe, _, hg⟩ := List.mem_filterMap.mp hx
        obtain ⟨i, o⟩ := pe
        cases o with
        | none => cases hg
        | some peer =>
          dsimp only at hg
          split at hg
          · obtain rfl := Option.some.inj hg
            rfl
          · cases hg


/-- C2: when a switch fans a broadcast out to its ports, the copies
handed to distinct ports live at pairwise distinct addresses, each
address holds an independently owned copy of the forwarded packet, and
mutating the copy behind one port's address (its `last_hop` field or
its visited set) is never observable through the address handed to any
other port. -/
theorem broadcast_fanout_copies_independent (cfg : SwitchNodeCfg)
    (pkt : BPacket) (heap : Heap) (outs : List (Nat × Nat × BPacket))
    (hput : broadcastPut cfg pkt = .forwarded outs) :
    List.Pairwise (fun x y : Nat × Nat × Nat => x.2.2 ≠ y.2.2)
      (fanOutHeap heap outs).2 ∧
    (∀ x ∈ (fanOutHeap heap outs).2,
      (fanOutHeap heap outs).1.get x.2.2 =
        some { pkt with history_hop := pkt.history_hop ++ [cfg.node_id],
                        last_hop := cfg.node_id }) ∧
    (∀ x ∈ (fanOutHeap heap outs).2, ∀ y ∈ (fanOutHeap heap outs).2,
      x.2.2 ≠ y.2.2 → ∀ v,
        ((fanOutHeap heap outs).1.set x.2.2 v).get y.2.2 =
          (fanOutHeap heap outs).1.get y.2.2) := by
  have haddrs := fanOutHeap_addrs outs heap
  have hcells := fanOutHeap_cells outs heap
  refine ⟨?_, ?_, ?_⟩
  · have hnd : ((fanOutHeap heap outs).2.map (fun o => o.2.2)).Nodup := by
      rw [haddrs]
      exact ((List.nodup_range _).map (fun a b hab => by omega))
    rw [List.Nodup, List.pairwise_map] at hnd
    exact hnd
  · intro x hx
    have hmem : x.2.2 ∈ (fanOutHeap heap outs).2.map (fun o => o.2.2) :=
      List.mem_map_of_mem _ hx
    rw [haddrs] at hmem
    obtain ⟨i, hi, haddr⟩ := List.mem_map.mp hmem
    have hilt : i < outs.length := List.mem_range.mp hi
    rw [← haddr]
    unfold Heap.get
    rw [hcells, List.getElem?_append_right (by omega)]
    have hsub : heap.cells.length + i - heap.cells.length = i := by omega
    rw [hsub]
    have hlen : i < (outs.map (fun o => o.2.2)).length := by
      rw [List.length_map]
      exact hilt
    rw [List.getElem?_eq_getElem hlen]
    congr 1
    have hmem2 : (outs.map (fun o => o.2.2))[i] ∈ outs.map (fun o => o.2.2) :=
      List.getElem_mem _
    obtain ⟨o, ho, heq⟩ := List.mem_map.mp hmem2
    rw [← heq]
    exact broadcastPut_forwarded_copies cfg pkt outs hput o ho
  · intro x _ y _ hne v
    unfold Heap.set Heap.get
    exact List.getElem?_set_ne hne

/-- Witness for `broadcast_fanout_copies_independent`: a two-port node
(id `3`) fanning a self-originated packet out on ports `0` and `1`,
against the empty heap. -/
theorem broadcast_fanout_copies_independent_witness :
    List.Pairwise (fun x y : Nat × Nat × Nat => x.2.2 ≠ y.2.2)
      (fanOutHeap { cells := [] }
        [(0, 7, { packet_id := 0, last_hop := 3, history_hop := [3] }),
         (1, 8, { packet_id := 0, last_hop := 3, history_hop := [3] })]).2 ∧
    (∀ x ∈ (fanOutHeap { cells := [] }
        [(0, 7, { packet_id := 0, last_hop := 3, history_hop := [3] }),
         (1, 8, { packet_id := 0, last_hop := 3, history_hop := [3] })]).2,
      (fanOutHeap { cells := [] }
        [(0, 7, { packet_id := 0, last_hop := 3, history_hop := [3] }),
         (1, 8, { packet_id := 0, last_hop := 3, history_hop := [3] })]).1.get x.2.2 =
        some { packet_id := 0, last_hop := 3, history_hop := [] ++ [3] }) ∧
    (∀ x ∈ (fanOutHeap { cells := [] }
        [(0, 7, { packet_id := 0, last_hop := 3, history_hop := [3] }),
         (1, 8, { packet_id := 0, last_hop := 3, history_hop := [3] })]).2,
      ∀ y ∈ (fanOutHeap { cells := [] }
        [(0, 7, { packet_id := 0, last_hop := 3, history_hop := [3] }),
         (1, 8, { packet_id := 0, last_hop := 3, history_hop := [3] })]).2,
      x.2.2 ≠ y.2.2 → ∀ v,
        ((fanOutHeap { cells := [] }
          [(0, 7, { packet_id := 0, last_hop := 3, history_hop := [3] }),
           (1, 8, { packet_id := 0, last_hop := 3, history_hop := [3] })]).1.set x.2.2 v).get y.2.2 =
          (fanOutHeap { cells := [] }
            [(0, 7, { packet_id := 0, last_hop := 3, history_hop := [3] }),
             (1, 8, { packet_id := 0, last_hop := 3, history_hop := [3] })]).1.get y.2.2) :=
  broadcast_fanout_copies_independent
    { node_id := 3, is_host := false, nexthop_to_port := fun _ => none,
      ports := [some 7, some 8] }
    { packet_id := 0, last_hop := 3, history_hop := [] }
    { cells := [] }
    [(0, 7, { packet_id := 0, last_hop := 3, history_hop := [3] }),
     (1, 8, { packet_id := 0, last_hop := 3, history_hop := [3] })]
    (by decide)

end CMCCL
